import Mathlib

set_option maxHeartbeats 1000000

/-!
Shallow embedding of the SCORM content navigator (scorm-content-navigator).

The embedding covers the four core components of the system:

* `LocalSCORMDataStore` (the runtime data store of `scorm-api.ts`): session
  state, the element validator `validateSCORMElement`, the sanitizer
  `sanitizeValue` (three global regex replaces, trim, 4096-unit cap), and the
  five protocol operations.  Strings are modelled as Lean `String`; `length`
  counts characters (the source counts UTF-16 units; the claims do not hinge
  on astral-plane code points).  The JS object `this.data` is modelled as an
  insertion-ordered association list, matching JS property-update semantics.
  The source's private field `initialized` is modelled by the field `inited`,
  and the method `initialize()` by `initStore`.
* `SCORMManifestParser` (`scorm-manifest.ts`): the typed manifest tree and
  `getPlayableItems`.  TS truthiness of `item.href` (absent / `null` /
  empty string are all falsy) is modelled by `hrefTruthy`.
* `SCORMPackageManager` (`scorm-package-manager.ts`): `uploadPackage`'s
  validation sequence, and the two-tier storage of `storePackage` /
  `getPackageById`.  IndexedDB is modelled as an `id`-keyed association list,
  localStorage's catalog as a flat list; the single boolean
  `primaryAvailable` models whether the IndexedDB open / transaction /
  request path throws (the `catch` branches of the source).  Asynchronous
  steps are sequentialized (the source awaits every step in order); `Date`
  values are carried as their ISO strings; the member-file map and on-demand
  file loading are outside the claims and omitted from the package record.
* the API discovery function `findAPI` (`SCORMPlayer.tsx`, identical in
  `injectSCORMAPI` and in the injected bootstrap): the window chain is
  modelled by a map `parent : Nat → Option Nat` (`none` models `null`,
  `some w` for window `w` itself models `win.parent == win`), and the two
  well-known bindings by boolean maps.
-/

/-! ### Character helpers (JS regex classes, ASCII case folding) -/

/-- JS `\w` without the `u` flag: `[A-Za-z0-9_]`. -/
def isWordChar (c : Char) : Bool := c.isAlphanum || c == '_'

/-- JS `\s`: whitespace and line terminators (the set used by `\s` and by
`String.prototype.trim`). -/
def isJsWs (c : Char) : Bool :=
  c == '\t' || c == '\n' || c == '\x0b' || c == '\x0c' || c == '\r' || c == ' ' ||
  c == '\u00A0' || c == '\u1680' || ('\u2000' ≤ c && c ≤ '\u200A') ||
  c == '\u2028' || c == '\u2029' || c == '\u202F' || c == '\u205F' ||
  c == '\u3000' || c == '\uFEFF'

/-- Case-insensitive "the second list starts with the first" (ASCII folding,
which is what a JS regex `i` flag does for these ASCII patterns). -/
def ciStarts : List Char → List Char → Bool
  | [], _ => true
  | _ :: _, [] => false
  | p :: ps, c :: cs => (p.toLower == c.toLower) && ciStarts ps cs

/-! ### `sanitizeValue` (scorm-api.ts)

`value.replace(/<script\b[^<]*(?:(?!<\/script>)<[^<]*)*<\/script>/gi, "")
      .replace(/javascript:/gi, "")
      .replace(/on\w+\s*=/gi, "")
      .trim().substring(0, 4096)`

Each global replace is a left-to-right scan that removes every leftmost
non-overlapping match.  The first pattern matches from a `<script` opening
(with a `\b` boundary after it) up to and including the first following
`</script>`; if no closing tag follows, there is no match at that position.
The third pattern matches `on`, one or more word characters, optional
whitespace, `=` (only the maximal word-character run can be followed by a
successful `\s*=` tail, so the scan below is exact).  The scans are written
with a fuel argument (one unit per consumed character, so `l.length` fuel is
always enough) to keep them structurally recursive. -/

def openScriptPat : List Char := ['<', 's', 'c', 'r', 'i', 'p', 't']

def closeScriptPat : List Char := ['<', '/', 's', 'c', 'r', 'i', 'p', 't', '>']

/-- Position where `<script\b` matches (case-insensitively). -/
def scriptOpenAt (l : List Char) : Bool :=
  ciStarts openScriptPat l &&
  (match List.drop 7 l with
   | [] => true
   | d :: _ => !isWordChar d)

/-- Scan for the next `</script>` (case-insensitive); return what follows it. -/
def dropToCloseScript : List Char → Option (List Char)
  | [] => none
  | c :: cs =>
    if ciStarts closeScriptPat (c :: cs) then some (List.drop 9 (c :: cs))
    else dropToCloseScript cs

/-- A full `<script ... </script>` match starts here. -/
def scriptFullAt (l : List Char) : Bool :=
  scriptOpenAt l && (dropToCloseScript (List.drop 7 l)).isSome

def stripScriptsF : Nat → List Char → List Char
  | 0, l => l
  | _ + 1, [] => []
  | fuel + 1, c :: cs =>
    if scriptOpenAt (c :: cs) then
      match dropToCloseScript (List.drop 7 (c :: cs)) with
      | some rest => stripScriptsF fuel rest
      | none => c :: stripScriptsF fuel cs
    else c :: stripScriptsF fuel cs

/-- Model of `.replace(/<script\b[^<]*(?:(?!<\/script>)<[^<]*)*<\/script>/gi, "")`. -/
def stripScripts (l : List Char) : List Char := stripScriptsF l.length l

def jsuriPat : List Char := ['j', 'a', 'v', 'a', 's', 'c', 'r', 'i', 'p', 't', ':']

def stripJsUriF : Nat → List Char → List Char
  | 0, l => l
  | _ + 1, [] => []
  | fuel + 1, c :: cs =>
    if ciStarts jsuriPat (c :: cs) then stripJsUriF fuel (List.drop 11 (c :: cs))
    else c :: stripJsUriF fuel cs

/-- Model of `.replace(/javascript:/gi, "")`. -/
def stripJsUri (l : List Char) : List Char := stripJsUriF l.length l

/-- Position where `on\w+\s*=` matches (case-insensitively). -/
def evtHead : List Char → Bool
  | o :: n :: rest =>
    o.toLower == 'o' && n.toLower == 'n' &&
    (match rest with
     | [] => false
     | d :: _ => isWordChar d) &&
    (match (rest.dropWhile isWordChar).dropWhile isJsWs with
     | '=' :: _ => true
     | _ => false)
  | _ => false

/-- Length of the `on\w+\s*=` match starting here (meaningful when `evtHead`). -/
def evtLen : List Char → Nat
  | _ :: _ :: rest =>
    2 + (rest.takeWhile isWordChar).length +
      ((rest.dropWhile isWordChar).takeWhile isJsWs).length + 1
  | _ => 0

def stripEvtF : Nat → List Char → List Char
  | 0, l => l
  | _ + 1, [] => []
  | fuel + 1, c :: cs =>
    if evtHead (c :: cs) then stripEvtF fuel (List.drop (evtLen (c :: cs)) (c :: cs))
    else c :: stripEvtF fuel cs

/-- Model of `.replace(/on\w+\s*=/gi, "")`. -/
def stripEvt (l : List Char) : List Char := stripEvtF l.length l

/-- Model of `String.prototype.trim`: drop `\s` characters from both ends. -/
def trimList (l : List Char) : List Char :=
  ((l.dropWhile isJsWs).reverse.dropWhile isJsWs).reverse

/-- Model of `LocalSCORMDataStore.sanitizeValue` (scorm-api.ts). -/
def sanitizeValue (v : String) : String :=
  String.mk (List.take 4096 (trimList (stripEvt (stripJsUri (stripScripts v.data)))))

/-- Generic scan: some suffix of the list satisfies the head predicate.  Used
to state "the value contains a script-bearing sequence". -/
def scanAny (p : List Char → Bool) : List Char → Bool
  | [] => false
  | c :: cs => p (c :: cs) || scanAny p cs

def containsScriptBlock (l : List Char) : Bool := scanAny scriptFullAt l

def containsJsUri (l : List Char) : Bool := scanAny (fun t => ciStarts jsuriPat t) l

def containsEvtAttr (l : List Char) : Bool := scanAny evtHead l

/-- The value carries one of the three script-bearing patterns the sanitizer
removes: an embedded script block, a `javascript:` URI scheme, or an inline
event-handler attribute pattern. -/
def scriptBearing (v : String) : Bool :=
  containsScriptBlock v.data || containsJsUri v.data || containsEvtAttr v.data

/-! ### `validateSCORMElement` (scorm-api.ts) -/

def statusValues : List String :=
  ["passed", "completed", "failed", "incomplete", "browsed", "not attempted"]

def exitValues : List String := ["time-out", "suspend", "logout", "normal", ""]

/-- Tail of `/^-?\d*\.?\d*$/` after the optional sign: the maximal leading
digit run must be followed by nothing, or by `.` and digits only. -/
def scoreTail (l : List Char) : Bool :=
  match l.dropWhile Char.isDigit with
  | [] => true
  | c :: rest => c == '.' && rest.all Char.isDigit

/-- Model of `/^-?\d*\.?\d*$/.test(value)`. -/
def scoreNum (l : List Char) : Bool :=
  match l with
  | [] => scoreTail []
  | c :: rest => if c == '-' then scoreTail rest else scoreTail (c :: rest)

/-- Modelled from the spec: the signed decimal number pattern — an optional
leading `-`, a digit run, an optional single `.`, a digit run. -/
def SpecScorePattern (v : String) : Prop :=
  ∃ (neg dot : Bool) (ds1 ds2 : List Char),
    (∀ c ∈ ds1, c.isDigit) ∧ (∀ c ∈ ds2, c.isDigit) ∧
    v.data = (if neg then ['-'] else []) ++ ds1 ++ (if dot then ['.'] else []) ++ ds2

/-- Model of `/^\d{2,4}:\d{2}:\d{2}(\.\d{1,2})?$/.test(value)`: the greedy `\d{2,4}`
can only succeed when the maximal leading digit run has length 2 to 4 and is
followed by `:`. -/
def timePattern (l : List Char) : Bool :=
  (decide (2 ≤ (l.takeWhile Char.isDigit).length) &&
   decide ((l.takeWhile Char.isDigit).length ≤ 4)) &&
  (match l.dropWhile Char.isDigit with
   | ':' :: m1 :: m2 :: ':' :: s1 :: s2 :: rest =>
     m1.isDigit && m2.isDigit && s1.isDigit && s2.isDigit &&
     (match rest with
      | [] => true
      | ['.', f1] => f1.isDigit
      | ['.', f1, f2] => f1.isDigit && f2.isDigit
      | _ => false)
   | _ => false)

/-- Model of `LocalSCORMDataStore.validateSCORMElement` (scorm-api.ts): global 4096
length cap, then element-specific rules (the `switch` with fall-through
cases for the three score elements and the two time elements). -/
def validateSCORMElement (element value : String) : Bool :=
  if value.length > 4096 then false
  else if element == "cmi.core.lesson_status" then statusValues.contains value
  else if element == "cmi.core.exit" then exitValues.contains value
  else if element == "cmi.core.score.raw" || element == "cmi.core.score.max" ||
          element == "cmi.core.score.min" then
    scoreNum value.data && decide (value.length ≤ 10)
  else if element == "cmi.core.session_time" || element == "cmi.core.total_time" then
    timePattern value.data
  else true

/-! ### `LocalSCORMDataStore` state and operations (scorm-api.ts) -/

/-- JS object property write `data[k] = v`: update the existing key in place,
or append a new key at the end. -/
def setData : List (String × String) → String → String → List (String × String)
  | [], k, v => [(k, v)]
  | (k', v') :: rest, k, v =>
    if k' == k then (k', v) :: rest else (k', v') :: setData rest k v

/-- The session store: `data`, the private `initialized` flag (field
`inited` here), and `errorCode`. -/
structure LocalSCORMDataStore where
  data : List (String × String)
  inited : Bool
  errorCode : String

/-- The constructor: default CMI values.  `userId || "student_001"` is falsy
on both `undefined` and the empty string. -/
def mkDataStore (userId courseId : Option String) : LocalSCORMDataStore :=
  { data :=
      [("cmi.core.student_id",
        match userId with
        | some u => if u == "" then "student_001" else u
        | none => "student_001"),
       ("cmi.core.student_name", "Student"),
       ("cmi.core.lesson_location", ""),
       ("cmi.core.credit", "credit"),
       ("cmi.core.lesson_status", "not attempted"),
       ("cmi.core.entry", "ab-initio"),
       ("cmi.core.lesson_mode", "normal"),
       ("cmi.core.exit", ""),
       ("cmi.core.session_time", "00:00:00"),
       ("cmi.core.total_time", "00:00:00"),
       ("cmi.core.score.raw", ""),
       ("cmi.core.score.max", ""),
       ("cmi.core.score.min", ""),
       ("cmi.suspend_data", ""),
       ("cmi.launch_data", ""),
       ("cmi.comments", ""),
       ("cmi.comments_from_lms", "")],
    inited := false,
    errorCode := "0" }

/-- Model of `initialize()`: fails with `"101"` when already initialized. -/
def initStore (s : LocalSCORMDataStore) : Bool × LocalSCORMDataStore :=
  if s.inited then (false, { s with errorCode := "101" })
  else (true, { s with inited := true, errorCode := "0" })

/-- Model of `terminate()`: fails with `"112"` when not initialized; otherwise clears
the `initialized` flag. -/
def terminate (s : LocalSCORMDataStore) : Bool × LocalSCORMDataStore :=
  if !s.inited then (false, { s with errorCode := "112" })
  else (true, { s with inited := false, errorCode := "0" })

/-- Model of `getValue(element)`: `this.data[element] || ""`. -/
def getValue (s : LocalSCORMDataStore) (element : String) : String × LocalSCORMDataStore :=
  if !s.inited then ("", { s with errorCode := "112" })
  else ((List.lookup element s.data).getD "", { s with errorCode := "0" })

/-- The fixed read-only element list of `setValue`. -/
def readOnlyElements : List String :=
  ["cmi.core.student_id",
   "cmi.core.student_name",
   "cmi.core.credit",
   "cmi.core.entry",
   "cmi.core.lesson_mode",
   "cmi.core.total_time",
   "cmi.launch_data",
   "cmi.comments_from_lms"]

/-- Model of `setValue(element, value)`: not-initialized check (`"112"`), read-only
check (`"403"`), validation (`"405"`), then store the sanitized value. -/
def setValue (s : LocalSCORMDataStore) (element value : String) :
    Bool × LocalSCORMDataStore :=
  if !s.inited then (false, { s with errorCode := "112" })
  else if readOnlyElements.contains element then (false, { s with errorCode := "403" })
  else if !validateSCORMElement element value then (false, { s with errorCode := "405" })
  else (true, { s with data := setData s.data element (sanitizeValue value), errorCode := "0" })

/-- Model of `commit()`: a bookkeeping no-op when initialized. -/
def commit (s : LocalSCORMDataStore) : Bool × LocalSCORMDataStore :=
  if !s.inited then (false, { s with errorCode := "112" })
  else (true, { s with errorCode := "0" })

def getLastError (s : LocalSCORMDataStore) : String := s.errorCode

/-- A store in the Active state, for concrete instantiations. -/
def sActive : LocalSCORMDataStore := (initStore (mkDataStore none none)).2

/-! ### Manifest tree and `getPlayableItems` (scorm-manifest.ts) -/

inductive SCORMItem : Type where
  | mk (identifier : String) (title : String) (href : Option String) (isVisible : Bool)
       (prerequisites : Option String) (maxtimeallowed : Option String)
       (timelimitaction : Option String) (datafromlms : Option String)
       (masteryScore : Option Rat) (children : List SCORMItem) (parameters : Option String)

def SCORMItem.href : SCORMItem → Option String
  | .mk _ _ h _ _ _ _ _ _ _ _ => h

def SCORMItem.isVisible : SCORMItem → Bool
  | .mk _ _ _ v _ _ _ _ _ _ _ => v

def SCORMItem.children : SCORMItem → List SCORMItem
  | .mk _ _ _ _ _ _ _ _ _ c _ => c

structure SCORMOrganization where
  identifier : String
  title : String
  items : List SCORMItem

structure SCORMResource where
  identifier : String
  type : String
  href : String
  files : List String

structure SCORMManifest where
  identifier : String
  version : String
  title : Option String
  organizations : List SCORMOrganization
  resources : List SCORMResource
  defaultOrganization : String

/-- TS truthiness of `item.href` (`undefined`, `null` and `""` are falsy). -/
def hrefTruthy : Option String → Bool
  | none => false
  | some s => !(s == "")

/-- The recursive collector inside `getPlayableItems`: push the item when
`item.href && item.isVisible`, then recurse into non-empty children. -/
def extractPlayableItems : List SCORMItem → List SCORMItem
  | [] => []
  | SCORMItem.mk idf t h v pr mta tla dfl ms ch pa :: rest =>
    (if hrefTruthy h && v then [SCORMItem.mk idf t h v pr mta tla dfl ms ch pa] else []) ++
    (if ch.length > 0 then extractPlayableItems ch else []) ++
    extractPlayableItems rest

/-- Model of `SCORMManifestParser.getPlayableItems`. -/
def getPlayableItems (m : SCORMManifest) : List SCORMItem :=
  (m.organizations.map (fun org => extractPlayableItems org.items)).flatten

/-- Modelled from the spec: the full pre-order listing of an item forest
(each item before its children, children before later siblings). -/
def preorderItems : List SCORMItem → List SCORMItem
  | [] => []
  | SCORMItem.mk idf t h v pr mta tla dfl ms ch pa :: rest =>
    SCORMItem.mk idf t h v pr mta tla dfl ms ch pa ::
      (preorderItems ch ++ preorderItems rest)

/-- An item both has an href and is visible. -/
def isPlayable (i : SCORMItem) : Bool := hrefTruthy i.href && i.isVisible

/-- Modelled from the spec: walk every Organization's tree in pre-order and
keep, in traversal order, exactly the items with an href that are visible. -/
def specPlayList (m : SCORMManifest) : List SCORMItem :=
  ((m.organizations.map (fun org => preorderItems org.items)).flatten).filter isPlayable

/-- Leaf-style item builder for the concrete example. -/
def mkItem (idf : String) (h : Option String) (vis : Bool) (ch : List SCORMItem) :
    SCORMItem :=
  SCORMItem.mk idf idf h vis none none none none none ch none

def itemA : SCORMItem := mkItem "A" (some "a.html") true []
def itemC : SCORMItem := mkItem "C" (some "c.html") true []
def itemD : SCORMItem := mkItem "D" (some "d.html") true []
def itemB : SCORMItem := mkItem "B" (some "b.html") false [itemC, itemD]
def itemE : SCORMItem := mkItem "E" (some "e.html") true []

/-- Organization with items `[A, B[C, D], E]`, `B` invisible. -/
def exampleManifest : SCORMManifest :=
  { identifier := "MAN-1", version := "1.2", title := some "Course",
    organizations := [{ identifier := "ORG-1", title := "Org",
                        items := [itemA, itemB, itemE] }],
    resources := [], defaultOrganization := "ORG-1" }

/-! ### Package storage (scorm-package-manager.ts) -/

/-- The persisted package metadata record `{id, name, uploadDate, manifest,
size}` (`uploadDate` carried as its ISO string). -/
structure StoredPackage where
  id : String
  name : String
  uploadDate : String
  manifest : SCORMManifest
  size : Nat

/-- The two storage tiers.  `primaryAvailable = false` models the IndexedDB
path throwing (the `catch` branches); the primary tier is an `id`-keyed
store, the degraded tier the flat localStorage catalog list. -/
structure StorageEnv where
  primaryAvailable : Bool
  primaryPackages : List (String × StoredPackage)
  localPackages : List StoredPackage

/-- IndexedDB `objectStore.put`: upsert by key. -/
def putPrimary : List (String × StoredPackage) → String → StoredPackage →
    List (String × StoredPackage)
  | [], k, v => [(k, v)]
  | (k', v') :: rest, k, v =>
    if k' == k then (k', v) :: rest else (k', v') :: putPrimary rest k v

/-- Model of `SCORMPackageManager.storePackage`: write to the primary tier; on any
primary-tier failure, push the metadata onto the localStorage catalog. -/
def storePackage (env : StorageEnv) (pkg : StoredPackage) : StorageEnv :=
  if env.primaryAvailable then
    { env with primaryPackages := putPrimary env.primaryPackages pkg.id pkg }
  else
    { env with localPackages := env.localPackages ++ [pkg] }

/-- Model of `SCORMPackageManager.getPackageById`: when the primary tier works, answer
from it alone (`request.result` present, else `null`); only when the primary
tier throws does the `catch` branch consult the localStorage catalog
(`packages.find(p => p.id === packageId)`). -/
def getPackageById (env : StorageEnv) (packageId : String) : Option StoredPackage :=
  if env.primaryAvailable then
    env.primaryPackages.lookup packageId
  else
    env.localPackages.find? (fun p => p.id == packageId)

/-- Concrete data for the C6 scenario. -/
def emptyManifest : SCORMManifest :=
  { identifier := "m1", version := "1.0", title := some "T",
    organizations := [], resources := [], defaultOrganization := "" }

def pkgX : StoredPackage :=
  { id := "p1", name := "Pkg", uploadDate := "2026-01-01T00:00:00.000Z",
    manifest := emptyManifest, size := 123 }

def envNoPrimary : StorageEnv :=
  { primaryAvailable := false, primaryPackages := [], localPackages := [] }

def envAfterStore : StorageEnv := storePackage envNoPrimary pkgX

def envPrimaryBack : StorageEnv := { envAfterStore with primaryAvailable := true }

/-! ### `uploadPackage` validation sequence (scorm-package-manager.ts) -/

/-- Side-effecting milestones of `uploadPackage`, in the order they run:
`loadArchive` is `zip.loadAsync` (the start of extraction work),
`extractFiles` the per-entry blob extraction, `storeWrite` the
`storePackage` call. -/
inductive UpEvent where
  | loadArchive
  | extractFiles
  | storeWrite
deriving DecidableEq

/-- The inputs `uploadPackage` inspects: the file's name and size, whether
the archive holds a root `imsmanifest.xml` entry, and the outcome of
`SCORMManifestParser.parseFromXML` on that entry (the DOM parse itself is
outside the embedding; its outcome is part of the input). -/
structure UploadInput where
  name : String
  size : Nat
  hasManifestEntry : Bool
  manifestParse : Except String SCORMManifest

def MAX_PACKAGE_SIZE : Nat := 100 * 1024 * 1024

/-- Model of `file.name.toLowerCase().endsWith('.zip')`: the last four characters of
the lowercased name are `.zip`. -/
def endsWithZip (name : String) : Bool :=
  (name.data.map Char.toLower).reverse.take 4 == ['p', 'i', 'z', '.']

/-- Model of `SCORMPackageManager.uploadPackage`: name-suffix check, size-ceiling
check, archive load, manifest-entry check, manifest parse, zero-organization
check, file extraction, storage write.  The result is paired with the list
of milestones that ran. -/
def uploadPackage (f : UploadInput) : Except String SCORMManifest × List UpEvent :=
  if !(endsWithZip f.name) then
    (Except.error "SCORM packages must be ZIP files", [])
  else if f.size > MAX_PACKAGE_SIZE then
    (Except.error "Package size exceeds 100MB limit", [])
  else if !f.hasManifestEntry then
    (Except.error "Invalid SCORM package: imsmanifest.xml not found", [UpEvent.loadArchive])
  else
    match f.manifestParse with
    | Except.error e => (Except.error e, [UpEvent.loadArchive])
    | Except.ok manifest =>
      if manifest.organizations.isEmpty then
        (Except.error "Invalid SCORM manifest: No organizations found", [UpEvent.loadArchive])
      else
        (Except.ok manifest,
         [UpEvent.loadArchive, UpEvent.extractFiles, UpEvent.storeWrite])

/-- Concrete upload inputs for the C7 instantiations. -/
def upBadName : UploadInput :=
  { name := "course.rar", size := 10, hasManifestEntry := true,
    manifestParse := Except.ok exampleManifest }

def upTooBig : UploadInput :=
  { name := "course.zip", size := 100 * 1024 * 1024 + 1, hasManifestEntry := true,
    manifestParse := Except.ok exampleManifest }

def upNoManifest : UploadInput :=
  { name := "course.zip", size := 10, hasManifestEntry := false,
    manifestParse := Except.error "Invalid XML" }

def upNoOrgs : UploadInput :=
  { name := "course.zip", size := 10, hasManifestEntry := true,
    manifestParse := Except.ok emptyManifest }

/-! ### API discovery (`findAPI` in SCORMPlayer.tsx) -/

/-- The window-chain environment: which windows carry `API` /
`API_1484_11`, and each window's `parent` (`none` models `null`, `some w`
for `w` itself models a top-level window whose parent is itself). -/
structure WinEnv where
  api : Nat → Bool
  api2 : Nat → Bool
  parent : Nat → Option Nat

/-- Model of `win.API || win.API_1484_11`: the binding the function would return from
window `w` (`true` tags the legacy `API` binding). -/
def bindingAt (e : WinEnv) (w : Nat) : Option (Nat × Bool) :=
  if e.api w then some (w, true)
  else if e.api2 w then some (w, false)
  else none

/-- The `while` loop of `findAPI`: ascend while neither binding is present,
the parent is non-null and distinct from the window, and fewer than 500
ascents have happened; the in-loop `break` after ascending re-checks the
bindings, which coincides with re-entering the loop test. -/
def findAPILoop (e : WinEnv) (win attempts : Nat) : Option (Nat × Bool) :=
  if !(e.api win) && !(e.api2 win) then
    match e.parent win with
    | none => bindingAt e win
    | some p =>
      if p = win then bindingAt e win
      else if attempts < 500 then findAPILoop e p (attempts + 1)
      else bindingAt e win
  else bindingAt e win
termination_by 500 - attempts
decreasing_by omega

/-- Model of `findAPI(win)` as injected by `injectSCORMAPI` and by the HTML bootstrap
(the two copies in SCORMPlayer.tsx are identical). -/
def findAPI (e : WinEnv) (win : Nat) : Option (Nat × Bool) :=
  findAPILoop e win 0

/-- Modelled from the spec: ascend the parent chain, at most `fuel` ascents,
returning the first context's binding when one is present, stopping with
nothing at a null or self parent, and answering the current context's
binding when the ascent budget is exhausted. -/
def specSearch (e : WinEnv) (win : Nat) : Nat → Option (Nat × Bool)
  | 0 => bindingAt e win
  | fuel + 1 =>
    match bindingAt e win with
    | some b => some b
    | none =>
      match e.parent win with
      | none => none
      | some p => if p = win then none else specSearch e p fuel

/-! ## Theorems -/

/-! ### Shared data-store lemmas -/

/-- Writing a key and looking it up again yields the written value. -/
theorem lookup_setData_self (d : List (String × String)) (k v : String) :
    List.lookup k (setData d k v) = some v := by
  induction d with
  | nil => simp [setData, List.lookup]
  | cons kv rest ih =>
    obtain ⟨k', v'⟩ := kv
    by_cases h : k' = k
    · subst h
      simp [setData, List.lookup]
    · have hb : (k' == k) = false := by simp [h]
      have hb' : (k == k') = false := by simp [Ne.symm h]
      simp [setData, hb, List.lookup, hb', ih]

/-! ### C1: terminate is not terminal -/

/-- C1, counterexample: the claim says that after a successful `terminate()`
from the Active state, `initialize()` fails and no operation returns the
store to Active.  On the code, terminating an Active store succeeds, and an
immediately following `initialize()` succeeds and makes the store Active
again (the store only keeps a boolean flag, so Terminated and Uninitialized
are the same state). -/
theorem C1_counterexample :
    (terminate sActive).1 = true ∧
    (initStore (terminate sActive).2).1 = true ∧
    (initStore (terminate sActive).2).2.inited = true := by
  refine ⟨rfl, rfl, rfl⟩

/-- C1, amended: after `terminate()` succeeds from Active, a second
`terminate()` immediately after fails with code `"112"`; but the state
reached is equivalent to Uninitialized, not terminal: `initialize()`
succeeds (returns true) and returns the store to Active. -/
theorem C1_terminate_not_terminal (s : LocalSCORMDataStore) (h : s.inited = true) :
    (terminate s).1 = true ∧
    (terminate (terminate s).2).1 = false ∧
    (terminate (terminate s).2).2.errorCode = "112" ∧
    (initStore (terminate s).2).1 = true ∧
    (initStore (terminate s).2).2.inited = true := by
  simp [terminate, initStore, h]

/-- C1, witness: the amended theorem at the concrete Active store. -/
theorem C1_witness :
    (terminate sActive).1 = true ∧
    (terminate (terminate sActive).2).1 = false ∧
    (terminate (terminate sActive).2).2.errorCode = "112" ∧
    (initStore (terminate sActive).2).1 = true ∧
    (initStore (terminate sActive).2).2.inited = true :=
  C1_terminate_not_terminal sActive rfl

/-! ### C2: failed validation -/

/-- C2, counterexample: the claim quantifies over every element whose
per-element validation rejects the value, but for a read-only element whose
validation also rejects (here `cmi.core.total_time` with value `"x"`), the
read-only check runs first and the error code becomes `"403"`, not `"405"`
(the mapping is still unchanged and the call still returns false). -/
theorem C2_counterexample :
    sActive.inited = true ∧
    validateSCORMElement "cmi.core.total_time" "x" = false ∧
    (setValue sActive "cmi.core.total_time" "x").1 = false ∧
    (setValue sActive "cmi.core.total_time" "x").2.errorCode = "403" ∧
    ("403" : String) ≠ "405" := by
  refine ⟨rfl, by decide, rfl, rfl, by decide⟩

/-- C2, amended: for every element outside the read-only set, if the store
is Active and per-element validation rejects the value, `setValue` returns
false, the last-error code becomes `"405"`, and the stored element mapping
is completely unchanged. -/
theorem C2_validation_failure (s : LocalSCORMDataStore) (el v : String)
    (hs : s.inited = true) (hro : readOnlyElements.contains el = false)
    (hval : validateSCORMElement el v = false) :
    (setValue s el v).1 = false ∧
    (setValue s el v).2.errorCode = "405" ∧
    (setValue s el v).2.data = s.data := by
  have hro' : el ∉ readOnlyElements := by simpa using hro
  simp [setValue, hs, hro', hval]

/-- C2, witness: the amended theorem at a concrete rejected write. -/
theorem C2_witness :
    (setValue sActive "cmi.core.score.raw" "abc").1 = false ∧
    (setValue sActive "cmi.core.score.raw" "abc").2.errorCode = "405" ∧
    (setValue sActive "cmi.core.score.raw" "abc").2.data = sActive.data :=
  C2_validation_failure sActive "cmi.core.score.raw" "abc" rfl (by decide) (by decide)

/-! ### C3: read-only writes -/

/-- C3, counterexample: the claim says a write to a read-only element sets
error `"403"` regardless of prior state, but on a store that is not
initialized the not-initialized check runs first: the error code becomes
`"112"`, not `"403"`. -/
theorem C3_counterexample :
    readOnlyElements.contains "cmi.core.student_id" = true ∧
    (mkDataStore none none).inited = false ∧
    (setValue (mkDataStore none none) "cmi.core.student_id" "x").1 = false ∧
    (setValue (mkDataStore none none) "cmi.core.student_id" "x").2.errorCode = "112" ∧
    ("112" : String) ≠ "403" := by
  refine ⟨by decide, rfl, rfl, rfl, by decide⟩

/-- C3, amended: for every element in the fixed read-only set and every
value, `setValue` returns false in every prior state and never changes the
mapping; the last-error code becomes `"403"` when the store is Active and
`"112"` otherwise (Uninitialized, or after terminate). -/
theorem C3_readonly_rejected (s : LocalSCORMDataStore) (el v : String)
    (h : readOnlyElements.contains el = true) :
    (setValue s el v).1 = false ∧
    (setValue s el v).2.errorCode = (if s.inited then "403" else "112") ∧
    (setValue s el v).2.data = s.data := by
  have h' : el ∈ readOnlyElements := by simpa using h
  by_cases hs : s.inited <;> simp [setValue, hs, h']

/-- C3, witness: the amended theorem at a concrete read-only write. -/
theorem C3_witness :
    (setValue sActive "cmi.launch_data" "x").1 = false ∧
    (setValue sActive "cmi.launch_data" "x").2.errorCode =
      (if sActive.inited then "403" else "112") ∧
    (setValue sActive "cmi.launch_data" "x").2.data = sActive.data :=
  C3_readonly_rejected sActive "cmi.launch_data" "x" (by decide)

/-! ### C10: pre-seeded defaults -/

/-- C10: a freshly constructed store is pre-seeded with the default CMI
values, so after `initialize()`, `getValue` on these elements returns the
non-empty default rather than the empty string, for every constructor
argument. -/
theorem C10_default_values (userId courseId : Option String) :
    (getValue (initStore (mkDataStore userId courseId)).2 "cmi.core.lesson_status").1
      = "not attempted" ∧
    (getValue (initStore (mkDataStore userId courseId)).2 "cmi.core.credit").1
      = "credit" ∧
    (getValue (initStore (mkDataStore userId courseId)).2 "cmi.core.entry").1
      = "ab-initio" ∧
    (getValue (initStore (mkDataStore userId courseId)).2 "cmi.core.student_name").1
      = "Student" ∧
    (getValue (initStore (mkDataStore userId courseId)).2 "cmi.core.total_time").1
      = "00:00:00" ∧
    ("not attempted" : String) ≠ "" ∧ ("credit" : String) ≠ "" ∧
    ("ab-initio" : String) ≠ "" ∧ ("Student" : String) ≠ "" ∧
    ("00:00:00" : String) ≠ "" := by
  refine ⟨?_, ?_, ?_, ?_, ?_, by decide, by decide, by decide, by decide, by decide⟩ <;>
    simp [mkDataStore, initStore, getValue, List.lookup]

/-! ### C9: score-element validation -/

/-- Every character of a `takeWhile isDigit` run is a digit, and the
decomposition lemma for `scoreTail`. -/
theorem scoreTail_iff (l : List Char) :
    scoreTail l = true ↔
    ∃ (dot : Bool) (ds1 ds2 : List Char),
      (∀ c ∈ ds1, c.isDigit) ∧ (∀ c ∈ ds2, c.isDigit) ∧
      l = ds1 ++ (if dot then ['.'] else []) ++ ds2 := by
  constructor
  · intro h
    rcases hdw : l.dropWhile Char.isDigit with _ | ⟨c, rest⟩
    · refine ⟨false, l.takeWhile Char.isDigit, [], ?_, by simp, ?_⟩
      · intro x hx; exact List.mem_takeWhile_imp hx
      · have := List.takeWhile_append_dropWhile Char.isDigit l
        rw [hdw] at this
        simpa using this.symm
    · simp only [scoreTail, hdw, Bool.and_eq_true, beq_iff_eq] at h
      obtain ⟨hc, hall⟩ := h
      subst hc
      refine ⟨true, l.takeWhile Char.isDigit, rest, ?_, ?_, ?_⟩
      · intro x hx; exact List.mem_takeWhile_imp hx
      · intro x hx; exact List.all_eq_true.mp hall x hx
      · have := List.takeWhile_append_dropWhile Char.isDigit l
        rw [hdw] at this
        simpa using this.symm
  · rintro ⟨dot, ds1, ds2, h1, h2, rfl⟩
    cases dot
    · have hnil : (ds1 ++ ds2).dropWhile Char.isDigit = [] := by
        refine List.dropWhile_eq_nil_iff.mpr ?_
        intro x hx
        rcases List.mem_append.mp hx with hx | hx
        · exact h1 x hx
        · exact h2 x hx
      simp [scoreTail, hnil]
    · have hd1 : ds1.dropWhile Char.isDigit = [] := List.dropWhile_eq_nil_iff.mpr h1
      have hdw : (ds1 ++ '.' :: ds2).dropWhile Char.isDigit = '.' :: ds2 := by
        rw [List.dropWhile_append]
        simp [hd1]
      have hgoal : scoreTail (ds1 ++ '.' :: ds2) = true := by
        simp [scoreTail, hdw, List.all_eq_true]
        exact h2
      simpa using hgoal

/-- A list of the signed-decimal shape never starts with `'-'` unless the
sign is present. -/
theorem no_minus_head (ds1 ds2 : List Char) (dot : Bool) (rest : List Char)
    (h1 : ∀ c ∈ ds1, c.isDigit) (h2 : ∀ c ∈ ds2, c.isDigit) :
    ('-' :: rest : List Char) ≠ ds1 ++ (if dot then ['.'] else []) ++ ds2 := by
  intro heq
  rcases ds1 with _ | ⟨d, tl⟩
  · cases dot
    · simp only [List.nil_append, if_neg Bool.false_ne_true] at heq
      rcases ds2 with _ | ⟨e, tl2⟩
      · simp at heq
      · have : ('-' : Char) = e := by
          have := congrArg (fun l : List Char => l.head?) heq
          simpa using this
        have he := h2 e (by simp)
        rw [← this] at he
        simp at he
    · have : ('-' : Char) = '.' := by
        have := congrArg (fun l : List Char => l.head?) heq
        simpa using this
      simp at this
  · have : ('-' : Char) = d := by
      have := congrArg (fun l : List Char => l.head?) heq
      simpa using this
    have hd := h1 d (by simp)
    rw [← this] at hd
    simp at hd

/-- The score regex `/^-?\d*\.?\d*$/` holds exactly on the signed decimal
number pattern of the spec. -/
theorem scoreNum_iff (v : String) : scoreNum v.data = true ↔ SpecScorePattern v := by
  unfold SpecScorePattern
  rcases hv : v.data with _ | ⟨c, rest⟩
  · constructor
    · intro _
      exact ⟨false, false, [], [], by simp, by simp, by simp [hv]⟩
    · intro _
      simp [scoreNum, scoreTail]
  · by_cases hc : c = '-'
    · subst hc
      constructor
      · intro h
        simp only [scoreNum, beq_self_eq_true, if_pos] at h
        obtain ⟨dot, ds1, ds2, h1, h2, hrest⟩ := (scoreTail_iff rest).mp h
        exact ⟨true, dot, ds1, ds2, h1, h2, by simp [hv, hrest]⟩
      · rintro ⟨neg, dot, ds1, ds2, h1, h2, heq⟩
        cases neg
        · exact absurd (by simpa using heq) (no_minus_head ds1 ds2 dot rest h1 h2)
        · simp only [if_pos, List.cons_append, List.singleton_append, List.cons.injEq] at heq
          obtain ⟨-, hrest⟩ := heq
          simp only [scoreNum, beq_self_eq_true, if_pos]
          exact (scoreTail_iff rest).mpr ⟨dot, ds1, ds2, h1, h2, hrest⟩
    · have hcb : (c == '-') = false := by simp [hc]
      constructor
      · intro h
        simp only [scoreNum, hcb, if_neg, Bool.false_eq_true, if_false] at h
        obtain ⟨dot, ds1, ds2, h1, h2, hrest⟩ := (scoreTail_iff (c :: rest)).mp h
        exact ⟨false, dot, ds1, ds2, h1, h2, by simp [hv, hrest]⟩
      · rintro ⟨neg, dot, ds1, ds2, h1, h2, heq⟩
        cases neg
        · simp only [if_neg Bool.false_ne_true, List.nil_append] at heq
          simp only [scoreNum, hcb, Bool.false_eq_true, if_false]
          exact (scoreTail_iff (c :: rest)).mpr ⟨dot, ds1, ds2, h1, h2, heq⟩
        · exfalso
          apply hc
          have := congrArg (fun l : List Char => l.head?) heq
          simpa using this

/-- C9: on an Active store, `setValue` on a score element accepts a value
exactly when it is at most 10 characters long and matches the signed
decimal number pattern (optional leading `-`, digits, optional single `.`
with digits). -/
theorem C9_score_acceptance (s : LocalSCORMDataStore) (el v : String)
    (hs : s.inited = true)
    (hel : el = "cmi.core.score.raw" ∨ el = "cmi.core.score.max" ∨
           el = "cmi.core.score.min") :
    ((setValue s el v).1 = true ↔ SpecScorePattern v ∧ v.length ≤ 10) := by
  have hfst : (setValue s el v).1 = validateSCORMElement el v := by
    have hro : ¬ el ∈ readOnlyElements := by
      rcases hel with rfl | rfl | rfl <;> decide
    rw [setValue]
    simp only [hs, Bool.not_true, Bool.false_eq_true, if_false]
    by_cases hval : validateSCORMElement el v <;> simp [hval, hro]
  rw [hfst]
  have hval : validateSCORMElement el v =
      (if v.length > 4096 then false
       else scoreNum v.data && decide (v.length ≤ 10)) := by
    rcases hel with rfl | rfl | rfl <;> rw [validateSCORMElement] <;> simp
  rw [hval]
  by_cases hlen : v.length > 4096
  · simp only [hlen, if_true]
    constructor
    · intro h; simp at h
    · rintro ⟨-, h10⟩; omega
  · simp only [hlen, if_false]
    simp [scoreNum_iff]

/-- C9, witness: the acceptance equivalence at a concrete score write. -/
theorem C9_witness :
    ((setValue sActive "cmi.core.score.raw" "12.5").1 = true ↔
      SpecScorePattern "12.5" ∧ ("12.5" : String).length ≤ 10) :=
  C9_score_acceptance sActive "cmi.core.score.raw" "12.5" rfl (Or.inl rfl)

/-! ### C6: tiered package lookup -/

/-- C6, counterexample: the claim says a by-id read that finds nothing in
the primary tier falls back to the degraded tier, so a package whose
metadata was written only to the degraded tier is returned even when the
primary tier is available.  On the code, the localStorage catalog is only
consulted in the `catch` branch: with the primary tier available but empty,
`getPackageById` returns `null` although the degraded tier holds the
package (stored earlier while the primary tier was down). -/
theorem C6_counterexample :
    envPrimaryBack.primaryAvailable = true ∧
    envPrimaryBack.localPackages.find? (fun p => p.id == "p1") = some pkgX ∧
    getPackageById envPrimaryBack "p1" = none := by
  refine ⟨rfl, rfl, rfl⟩

/-- C6, amended: the degraded tier is consulted exactly when the primary
tier operation fails; in particular, when the primary tier is unavailable
at both store and read time, a package stored (necessarily into the
degraded tier) is found again by `getPackageById`. -/
theorem C6_degraded_tier_roundtrip (env : StorageEnv) (pkg : StoredPackage)
    (hp : env.primaryAvailable = false)
    (hfresh : ∀ q ∈ env.localPackages, q.id ≠ pkg.id) :
    getPackageById (storePackage env pkg) pkg.id = some pkg := by
  rw [storePackage, getPackageById]
  simp only [hp, Bool.false_eq_true, if_false]
  rw [List.find?_append]
  have hnone : env.localPackages.find? (fun p => p.id == pkg.id) = none := by
    refine List.find?_eq_none.mpr ?_
    intro q hq
    simpa using hfresh q hq
  rw [hnone]
  simp [List.find?_cons]

/-- C6, witness: the amended theorem at the concrete scenario. -/
theorem C6_witness : getPackageById (storePackage envNoPrimary pkgX) "p1" = some pkgX :=
  C6_degraded_tier_roundtrip envNoPrimary pkgX rfl (by simp [envNoPrimary])

/-! ### C7: upload validation order -/

/-- C7: `uploadPackage` rejects a non-`.zip` filename (case-insensitively)
and an over-100-MiB file before any extraction work (no milestone runs at
all); it rejects a missing root `imsmanifest.xml` and a manifest with zero
organizations after the archive load but before any storage write; and no
error outcome ever happens after a storage write. -/
theorem C7_upload_validation (f : UploadInput) :
    (endsWithZip f.name = false →
      uploadPackage f = (Except.error "SCORM packages must be ZIP files", [])) ∧
    (endsWithZip f.name = true → f.size > MAX_PACKAGE_SIZE →
      uploadPackage f = (Except.error "Package size exceeds 100MB limit", [])) ∧
    (endsWithZip f.name = true → f.size ≤ MAX_PACKAGE_SIZE →
      f.hasManifestEntry = false →
      uploadPackage f =
        (Except.error "Invalid SCORM package: imsmanifest.xml not found",
         [UpEvent.loadArchive])) ∧
    (∀ m : SCORMManifest, endsWithZip f.name = true →
      f.size ≤ MAX_PACKAGE_SIZE → f.hasManifestEntry = true →
      f.manifestParse = Except.ok m → m.organizations = [] →
      uploadPackage f =
        (Except.error "Invalid SCORM manifest: No organizations found",
         [UpEvent.loadArchive])) ∧
    (∀ e : String, (uploadPackage f).1 = Except.error e →
      UpEvent.storeWrite ∉ (uploadPackage f).2) := by
  refine ⟨?_, ?_, ?_, ?_, ?_⟩
  · intro h; simp [uploadPackage, h]
  · intro h hsz; simp [uploadPackage, h, hsz]
  · intro h hsz hm
    have hsz' : ¬ f.size > MAX_PACKAGE_SIZE := by omega
    simp [uploadPackage, h, hsz', hm]
  · intro m h hsz hm hp ho
    have hsz' : ¬ f.size > MAX_PACKAGE_SIZE := by omega
    simp [uploadPackage, h, hsz', hm, hp, ho]
  · intro e
    rw [uploadPackage]
    split
    · intro _; simp
    · split
      · intro _; simp
      · split
        · intro _; simp
        · split
          · intro _; simp
          · split
            · intro _; simp
            · intro h; simp at h

/-- C7, witness: the four rejection shapes at concrete uploads. -/
theorem C7_witness :
    uploadPackage upBadName = (Except.error "SCORM packages must be ZIP files", []) ∧
    uploadPackage upTooBig = (Except.error "Package size exceeds 100MB limit", []) ∧
    uploadPackage upNoManifest =
      (Except.error "Invalid SCORM package: imsmanifest.xml not found",
       [UpEvent.loadArchive]) ∧
    uploadPackage upNoOrgs =
      (Except.error "Invalid SCORM manifest: No organizations found",
       [UpEvent.loadArchive]) :=
  ⟨(C7_upload_validation upBadName).1 (by decide),
   (C7_upload_validation upTooBig).2.1 (by decide) (by decide),
   (C7_upload_validation upNoManifest).2.2.1 (by decide) (by decide) rfl,
   (C7_upload_validation upNoOrgs).2.2.2.1 emptyManifest (by decide) (by decide) rfl rfl rfl⟩

/-! ### C4: pre-order play-list -/

/-- The collector of `getPlayableItems` equals filtering the full pre-order
listing: the visibility/href test only controls membership, never whether
children are visited. -/
theorem extract_eq_filter (l : List SCORMItem) :
    extractPlayableItems l = (preorderItems l).filter isPlayable := by
  induction l using preorderItems.induct with
  | case1 => simp [extractPlayableItems, preorderItems]
  | case2 idf t h v pr mta tla dfl ms ch pa rest ih1 ih2 =>
    rw [extractPlayableItems, preorderItems, List.filter_cons, List.filter_append]
    by_cases hch : ch.length > 0
    · simp only [hch, if_pos, ih1, ih2, isPlayable, SCORMItem.href, SCORMItem.isVisible]
      split <;> simp
    · have hch0 : ch = [] := by
        cases ch
        · rfl
        · simp at hch
      subst hch0
      simp only [hch, ih2, isPlayable, SCORMItem.href, SCORMItem.isVisible,
        preorderItems, extractPlayableItems, List.filter_nil, List.nil_append,
        if_false, Bool.false_eq_true, gt_iff_lt, lt_self_iff_false, List.length_nil]
      split <;> simp

/-- Organization-list version of `extract_eq_filter`. -/
theorem playlist_flatten (orgs : List SCORMOrganization) :
    (orgs.map (fun org => extractPlayableItems org.items)).flatten =
    ((orgs.map (fun org => preorderItems org.items)).flatten).filter isPlayable := by
  induction orgs with
  | nil => rfl
  | cons o os ih =>
    rw [List.map_cons, List.map_cons, List.flatten_cons, List.flatten_cons,
        List.filter_append, extract_eq_filter, ih]

/-- C4: `getPlayableItems` walks every Organization's item tree in
pre-order and returns, in traversal order, exactly the items that have an
href and are visible (children of excluded items are still visited); on the
Organization `[A, B[C, D], E]` with `B` invisible, the play-list is
`[A, C, D, E]`. -/
theorem C4_playable_preorder :
    (∀ m : SCORMManifest, getPlayableItems m = specPlayList m) ∧
    getPlayableItems exampleManifest = [itemA, itemC, itemD, itemE] := by
  constructor
  · intro m
    rw [getPlayableItems, specPlayList]
    exact playlist_flatten m.organizations
  · simp [getPlayableItems, exampleManifest, itemA, itemB, itemC, itemD, itemE, mkItem,
      extractPlayableItems, hrefTruthy]

/-! ### C8: API discovery -/

/-- When both bindings are absent, the returned binding is `none`. -/
theorem bindingAt_none_of_absent (e : WinEnv) (w : Nat)
    (h1 : e.api w = false) (h2 : e.api2 w = false) : bindingAt e w = none := by
  simp [bindingAt, h1, h2]

/-- The loop of `findAPI` agrees with the bounded-ascent search of the
spec, for every remaining budget. -/
theorem findAPILoop_eq_specSearch (e : WinEnv) :
    ∀ (n win attempts : Nat), attempts + n = 500 →
      findAPILoop e win attempts = specSearch e win n := by
  intro n
  induction n with
  | zero =>
    intro win attempts h500
    rw [findAPILoop, specSearch]
    by_cases h1 : e.api win
    · simp [h1, bindingAt]
    · by_cases h2 : e.api2 win
      · simp [h1, h2, bindingAt]
      · have hb : bindingAt e win = none := bindingAt_none_of_absent e win (by simpa using h1) (by simpa using h2)
        simp only [h1, h2, Bool.not_false, Bool.and_self, if_true]
        cases hp : e.parent win with
        | none => simp [hb]
        | some p =>
          by_cases hpw : p = win
          · simp [hpw, hb]
          · have : ¬ attempts < 500 := by omega
            simp [hpw, this, hb]
  | succ n ih =>
    intro win attempts h500
    rw [findAPILoop, specSearch]
    by_cases h1 : e.api win
    · simp [h1, bindingAt]
    · by_cases h2 : e.api2 win
      · simp [h1, h2, bindingAt]
      · have hb : bindingAt e win = none := bindingAt_none_of_absent e win (by simpa using h1) (by simpa using h2)
        simp only [h1, h2, Bool.not_false, Bool.and_self, if_true, hb]
        cases hp : e.parent win with
        | none => simp
        | some p =>
          by_cases hpw : p = win
          · simp [hpw]
          · have hlt : attempts < 500 := by omega
            simp only [hpw, if_neg, hlt, if_pos, if_true]
            have := ih p (attempts + 1) (by omega)
            simpa [hpw] using this

/-- C8: from any starting context, `findAPI` ascends the parent chain only
while neither well-known binding is present, performs at most 500 ascents,
stops at a null or self parent, and returns the first binding found (or
nothing): it coincides with the bounded pre-order search of the spec with
budget 500. -/
theorem C8_discovery_bounded (e : WinEnv) (win : Nat) :
    findAPI e win = specSearch e win 500 :=
  findAPILoop_eq_specSearch e 500 win 0 rfl

/-! ### C5: sanitizer length lemmas -/

/-- A case-insensitive pattern match needs at least the pattern's length. -/
theorem ciStarts_length {p l : List Char} (h : ciStarts p l = true) :
    p.length ≤ l.length := by
  induction p generalizing l with
  | nil => simp
  | cons a ps ih =>
    cases l with
    | nil => simp [ciStarts] at h
    | cons c cs =>
      simp only [ciStarts, Bool.and_eq_true] at h
      have := ih h.2
      simp only [List.length_cons]
      omega

/-- Skipping to past the next `</script>` consumes at least nine characters. -/
theorem dropToCloseScript_length {l r : List Char} (h : dropToCloseScript l = some r) :
    r.length + 9 ≤ l.length := by
  induction l with
  | nil => simp [dropToCloseScript] at h
  | cons c cs ih =>
    rw [dropToCloseScript] at h
    split at h
    · next hci =>
      have h9 : 9 ≤ (c :: cs).length := by
        have := ciStarts_length hci
        simpa [closeScriptPat] using this
      obtain rfl : List.drop 9 (c :: cs) = r := by simpa using h
      rw [List.length_drop]
      omega
    · have := ih h
      simp only [List.length_cons]
      omega

/-- The script stripper never lengthens its input. -/
theorem stripScriptsF_length_le (fuel : Nat) (l : List Char) :
    (stripScriptsF fuel l).length ≤ l.length := by
  induction fuel generalizing l with
  | zero => simp [stripScriptsF]
  | succ n ih =>
    cases l with
    | nil => simp [stripScriptsF]
    | cons c cs =>
      rw [stripScriptsF]
      split
      · cases hdc : dropToCloseScript (List.drop 7 (c :: cs)) with
        | some rest =>
          have h1 := dropToCloseScript_length hdc
          have h2 := ih rest
          have h3 : (List.drop 7 (c :: cs)).length = (c :: cs).length - 7 :=
            List.length_drop 7 (c :: cs)
          simp only [hdc, List.length_cons] at *
          omega
        | none =>
          have := ih cs
          simp only [hdc, List.length_cons]
          omega
      · have := ih cs
        simp only [List.length_cons]
        omega

/-- The `javascript:` stripper never lengthens its input. -/
theorem stripJsUriF_length_le (fuel : Nat) (l : List Char) :
    (stripJsUriF fuel l).length ≤ l.length := by
  induction fuel generalizing l with
  | zero => simp [stripJsUriF]
  | succ n ih =>
    cases l with
    | nil => simp [stripJsUriF]
    | cons c cs =>
      rw [stripJsUriF]
      split
      · have h1 := ih (List.drop 11 (c :: cs))
        have h2 : (List.drop 11 (c :: cs)).length = (c :: cs).length - 11 :=
          List.length_drop 11 (c :: cs)
        simp only [List.length_cons] at *
        omega
      · have := ih cs
        simp only [List.length_cons]
        omega

/-- The event-handler stripper never lengthens its input. -/
theorem stripEvtF_length_le (fuel : Nat) (l : List Char) :
    (stripEvtF fuel l).length ≤ l.length := by
  induction fuel generalizing l with
  | zero => simp [stripEvtF]
  | succ n ih =>
    cases l with
    | nil => simp [stripEvtF]
    | cons c cs =>
      rw [stripEvtF]
      split
      · have h1 := ih (List.drop (evtLen (c :: cs)) (c :: cs))
        have h2 : (List.drop (evtLen (c :: cs)) (c :: cs)).length =
            (c :: cs).length - evtLen (c :: cs) :=
          List.length_drop _ (c :: cs)
        simp only [List.length_cons] at *
        omega
      · have := ih cs
        simp only [List.length_cons]
        omega

/-- If the script stripper changed anything, the result is strictly shorter. -/
theorem stripScriptsF_lt_of_ne (fuel : Nat) (l : List Char)
    (h : stripScriptsF fuel l ≠ l) :
    (stripScriptsF fuel l).length < l.length := by
  induction fuel generalizing l with
  | zero => exact absurd rfl h
  | succ n ih =>
    cases l with
    | nil => exact absurd rfl h
    | cons c cs =>
      by_cases hso : scriptOpenAt (c :: cs)
      · cases hdc : dropToCloseScript (List.drop 7 (c :: cs)) with
        | some rest =>
          have hred : stripScriptsF (n + 1) (c :: cs) = stripScriptsF n rest := by
            rw [stripScriptsF, if_pos hso, hdc]
          rw [hred]
          have h1 := dropToCloseScript_length hdc
          have h2 := stripScriptsF_length_le n rest
          have h3 : (List.drop 7 (c :: cs)).length = (c :: cs).length - 7 :=
            List.length_drop 7 (c :: cs)
          simp only [List.length_cons] at h1 h2 h3 ⊢
          omega
        | none =>
          have hred : stripScriptsF (n + 1) (c :: cs) = c :: stripScriptsF n cs := by
            rw [stripScriptsF, if_pos hso, hdc]
          rw [hred] at h ⊢
          have hne : stripScriptsF n cs ≠ cs := fun heq => h (by rw [heq])
          have := ih cs hne
          simp only [List.length_cons]
          omega
      · have hred : stripScriptsF (n + 1) (c :: cs) = c :: stripScriptsF n cs := by
          rw [stripScriptsF, if_neg hso]
        rw [hred] at h ⊢
        have hne : stripScriptsF n cs ≠ cs := fun heq => h (by rw [heq])
        have := ih cs hne
        simp only [List.length_cons]
        omega

/-- If the `javascript:` stripper changed anything, the result is strictly
shorter. -/
theorem stripJsUriF_lt_of_ne (fuel : Nat) (l : List Char)
    (h : stripJsUriF fuel l ≠ l) :
    (stripJsUriF fuel l).length < l.length := by
  induction fuel generalizing l with
  | zero => exact absurd rfl h
  | succ n ih =>
    cases l with
    | nil => exact absurd rfl h
    | cons c cs =>
      rw [stripJsUriF] at h ⊢
      split at h
      · next hci =>
        rw [if_pos hci]
        have h1 := stripJsUriF_length_le n (List.drop 11 (c :: cs))
        have h11 : 11 ≤ (c :: cs).length := by
          have := ciStarts_length hci
          simpa [jsuriPat] using this
        have h2 : (List.drop 11 (c :: cs)).length = (c :: cs).length - 11 :=
          List.length_drop 11 (c :: cs)
        simp only [List.length_cons] at *
        omega
      · next hci =>
        rw [if_neg hci]
        have hne : stripJsUriF n cs ≠ cs := fun heq => h (by rw [heq])
        have := ih cs hne
        simp only [List.length_cons]
        omega

/-- If the event-handler stripper changed anything, the result is strictly
shorter. -/
theorem stripEvtF_lt_of_ne (fuel : Nat) (l : List Char)
    (h : stripEvtF fuel l ≠ l) :
    (stripEvtF fuel l).length < l.length := by
  induction fuel generalizing l with
  | zero => exact absurd rfl h
  | succ n ih =>
    cases l with
    | nil => exact absurd rfl h
    | cons c cs =>
      by_cases hev : evtHead (c :: cs)
      · have hred : stripEvtF (n + 1) (c :: cs) =
            stripEvtF n (List.drop (evtLen (c :: cs)) (c :: cs)) := by
          rw [stripEvtF, if_pos hev]
        rw [hred]
        have hk : 1 ≤ evtLen (c :: cs) := by
          cases cs with
          | nil => simp [evtHead] at hev
          | cons d ds => simp [evtLen]
        have h1 := stripEvtF_length_le n (List.drop (evtLen (c :: cs)) (c :: cs))
        have h2 := List.length_drop (evtLen (c :: cs)) (c :: cs)
        simp only [List.length_cons] at h1 h2 ⊢
        omega
      · have hred : stripEvtF (n + 1) (c :: cs) = c :: stripEvtF n cs := by
          rw [stripEvtF, if_neg hev]
        rw [hred] at h ⊢
        have hne : stripEvtF n cs ≠ cs := fun heq => h (by rw [heq])
        have := ih cs hne
        simp only [List.length_cons]
        omega

/-- If the input carries a full script block, the script stripper strictly
shortens it. -/
theorem stripScriptsF_lt_of_contains (fuel : Nat) (l : List Char)
    (hf : l.length ≤ fuel) (h : containsScriptBlock l = true) :
    (stripScriptsF fuel l).length < l.length := by
  induction fuel generalizing l with
  | zero =>
    have hnil : l = [] := List.length_eq_zero.mp (by omega)
    subst hnil
    simp [containsScriptBlock, scanAny] at h
  | succ n ih =>
    cases l with
    | nil => simp [containsScriptBlock, scanAny] at h
    | cons c cs =>
      simp only [containsScriptBlock, scanAny, Bool.or_eq_true] at h
      by_cases hfull : scriptFullAt (c :: cs) = true
      · have hso : scriptOpenAt (c :: cs) = true := by
          have := hfull
          simp only [scriptFullAt, Bool.and_eq_true] at this
          exact this.1
        have hsome : (dropToCloseScript (List.drop 7 (c :: cs))).isSome = true := by
          have := hfull
          simp only [scriptFullAt, Bool.and_eq_true] at this
          exact this.2
        obtain ⟨rest, hdc⟩ := Option.isSome_iff_exists.mp hsome
        have hred : stripScriptsF (n + 1) (c :: cs) = stripScriptsF n rest := by
          rw [stripScriptsF, if_pos hso, hdc]
        rw [hred]
        have h1 := dropToCloseScript_length hdc
        have h2 := stripScriptsF_length_le n rest
        have h3 := List.length_drop 7 (c :: cs)
        simp only [List.length_cons] at h1 h2 h3 ⊢
        omega
      · have hcs : containsScriptBlock cs = true := by
          rcases h with h | h
          · exact absurd h hfull
          · simpa [containsScriptBlock] using h
        have hfn : cs.length ≤ n := by
          simp only [List.length_cons] at hf
          omega
        have hlt := ih cs hfn hcs
        by_cases hso : scriptOpenAt (c :: cs)
        · have hdc : dropToCloseScript (List.drop 7 (c :: cs)) = none := by
            cases hdc' : dropToCloseScript (List.drop 7 (c :: cs)) with
            | none => rfl
            | some r =>
              exact absurd (by rw [scriptFullAt, hso, hdc']; rfl) hfull
          have hred : stripScriptsF (n + 1) (c :: cs) = c :: stripScriptsF n cs := by
            rw [stripScriptsF, if_pos hso, hdc]
          rw [hred]
          simp only [List.length_cons]
          omega
        · have hred : stripScriptsF (n + 1) (c :: cs) = c :: stripScriptsF n cs := by
            rw [stripScriptsF, if_neg hso]
          rw [hred]
          simp only [List.length_cons]
          omega

/-- If the input carries a `javascript:` occurrence, the URI stripper
strictly shortens it. -/
theorem stripJsUriF_lt_of_contains (fuel : Nat) (l : List Char)
    (hf : l.length ≤ fuel) (h : containsJsUri l = true) :
    (stripJsUriF fuel l).length < l.length := by
  induction fuel generalizing l with
  | zero =>
    have hnil : l = [] := List.length_eq_zero.mp (by omega)
    subst hnil
    simp [containsJsUri, scanAny] at h
  | succ n ih =>
    cases l with
    | nil => simp [containsJsUri, scanAny] at h
    | cons c cs =>
      simp only [containsJsUri, scanAny, Bool.or_eq_true] at h
      by_cases hci : ciStarts jsuriPat (c :: cs) = true
      · have hred : stripJsUriF (n + 1) (c :: cs) =
            stripJsUriF n (List.drop 11 (c :: cs)) := by
          rw [stripJsUriF, if_pos hci]
        rw [hred]
        have h1 := stripJsUriF_length_le n (List.drop 11 (c :: cs))
        have h11 : 11 ≤ (c :: cs).length := by
          have := ciStarts_length hci
          simpa [jsuriPat] using this
        have h2 := List.length_drop 11 (c :: cs)
        simp only [List.length_cons] at h1 h11 h2 ⊢
        omega
      · have hcs : containsJsUri cs = true := by
          rcases h with h | h
          · exact absurd h hci
          · simpa [containsJsUri] using h
        have hred : stripJsUriF (n + 1) (c :: cs) = c :: stripJsUriF n cs := by
          rw [stripJsUriF, if_neg hci]
        rw [hred]
        have hfn : cs.length ≤ n := by
          simp only [List.length_cons] at hf
          omega
        have := ih cs hfn hcs
        simp only [List.length_cons]
        omega

/-- If the input carries an inline event-handler pattern, the event stripper
strictly shortens it. -/
theorem stripEvtF_lt_of_contains (fuel : Nat) (l : List Char)
    (hf : l.length ≤ fuel) (h : containsEvtAttr l = true) :
    (stripEvtF fuel l).length < l.length := by
  induction fuel generalizing l with
  | zero =>
    have hnil : l = [] := List.length_eq_zero.mp (by omega)
    subst hnil
    simp [containsEvtAttr, scanAny] at h
  | succ n ih =>
    cases l with
    | nil => simp [containsEvtAttr, scanAny] at h
    | cons c cs =>
      simp only [containsEvtAttr, scanAny, Bool.or_eq_true] at h
      by_cases hev : evtHead (c :: cs) = true
      · have hred : stripEvtF (n + 1) (c :: cs) =
            stripEvtF n (List.drop (evtLen (c :: cs)) (c :: cs)) := by
          rw [stripEvtF, if_pos hev]
        rw [hred]
        have hk : 1 ≤ evtLen (c :: cs) := by
          cases cs with
          | nil => simp [evtHead] at hev
          | cons d ds => simp [evtLen]
        have h1 := stripEvtF_length_le n (List.drop (evtLen (c :: cs)) (c :: cs))
        have h2 := List.length_drop (evtLen (c :: cs)) (c :: cs)
        simp only [List.length_cons] at h1 h2 ⊢
        omega
      · have hcs : containsEvtAttr cs = true := by
          rcases h with h | h
          · exact absurd h hev
          · simpa [containsEvtAttr] using h
        have hred : stripEvtF (n + 1) (c :: cs) = c :: stripEvtF n cs := by
          rw [stripEvtF, if_neg hev]
        rw [hred]
        have hfn : cs.length ≤ n := by
          simp only [List.length_cons] at hf
          omega
        have := ih cs hfn hcs
        simp only [List.length_cons]
        omega

/-- Dropping a matching run never lengthens a list. -/
theorem dropWhile_length_le {α : Type} (p : α → Bool) (l : List α) :
    (l.dropWhile p).length ≤ l.length := by
  induction l with
  | nil => simp
  | cons a l ih =>
    rw [List.dropWhile_cons]
    split
    · simp only [List.length_cons]
      omega
    · simp

/-- Trimming never lengthens a list. -/
theorem trimList_length_le (l : List Char) : (trimList l).length ≤ l.length := by
  unfold trimList
  calc ((l.dropWhile isJsWs).reverse.dropWhile isJsWs).reverse.length
      = ((l.dropWhile isJsWs).reverse.dropWhile isJsWs).length :=
        List.length_reverse _
    _ ≤ (l.dropWhile isJsWs).reverse.length := dropWhile_length_le _ _
    _ = (l.dropWhile isJsWs).length := List.length_reverse _
    _ ≤ l.length := dropWhile_length_le _ _

/-- A value that carries a script-bearing sequence comes out of the
sanitizer strictly shorter (each removal only deletes characters). -/
theorem sanitizeValue_length_lt (v : String) (h : scriptBearing v = true) :
    (sanitizeValue v).data.length < v.data.length := by
  have hu5 : (sanitizeValue v).data =
      List.take 4096 (trimList (stripEvt (stripJsUri (stripScripts v.data)))) := rfl
  rw [hu5]
  have hle5 : (List.take 4096 (trimList (stripEvt (stripJsUri (stripScripts v.data))))).length ≤
      (trimList (stripEvt (stripJsUri (stripScripts v.data)))).length := by
    rw [List.length_take]
    exact min_le_right _ _
  have hle4 := trimList_length_le (stripEvt (stripJsUri (stripScripts v.data)))
  have hle3 : (stripEvt (stripJsUri (stripScripts v.data))).length ≤
      (stripJsUri (stripScripts v.data)).length := stripEvtF_length_le _ _
  have hle2 : (stripJsUri (stripScripts v.data)).length ≤
      (stripScripts v.data).length := stripJsUriF_length_le _ _
  have hle1 : (stripScripts v.data).length ≤ v.data.length := stripScriptsF_length_le _ _
  have hcore : (stripEvt (stripJsUri (stripScripts v.data))).length < v.data.length ∨
      (stripJsUri (stripScripts v.data)).length < v.data.length ∨
      (stripScripts v.data).length < v.data.length := by
    simp only [scriptBearing, Bool.or_eq_true] at h
    rcases h with (h | h) | h
    · exact Or.inr (Or.inr (stripScriptsF_lt_of_contains _ _ le_rfl h))
    · by_cases he1 : stripScripts v.data = v.data
      · refine Or.inr (Or.inl ?_)
        have : containsJsUri (stripScripts v.data) = true := by rw [he1]; exact h
        have hlt := stripJsUriF_lt_of_contains (stripScripts v.data).length _ le_rfl this
        calc (stripJsUri (stripScripts v.data)).length
            < (stripScripts v.data).length := hlt
          _ ≤ v.data.length := hle1
      · exact Or.inr (Or.inr (stripScriptsF_lt_of_ne _ _ he1))
    · by_cases he1 : stripScripts v.data = v.data
      · by_cases he2 : stripJsUri (stripScripts v.data) = stripScripts v.data
        · refine Or.inl ?_
          have : containsEvtAttr (stripJsUri (stripScripts v.data)) = true := by
            rw [he2, he1]; exact h
          have hlt := stripEvtF_lt_of_contains
            (stripJsUri (stripScripts v.data)).length _ le_rfl this
          calc (stripEvt (stripJsUri (stripScripts v.data))).length
              < (stripJsUri (stripScripts v.data)).length := hlt
            _ ≤ (stripScripts v.data).length := hle2
            _ ≤ v.data.length := hle1
        · refine Or.inr (Or.inl ?_)
          have hlt := stripJsUriF_lt_of_ne _ _ he2
          calc (stripJsUri (stripScripts v.data)).length
              < (stripScripts v.data).length := hlt
            _ ≤ v.data.length := hle1
      · exact Or.inr (Or.inr (stripScriptsF_lt_of_ne _ _ he1))
  rcases hcore with hc | hc | hc <;> omega

/-- C5: on an Active store, an accepted `setValue` followed by `getValue` of
the same element returns exactly the sanitized form of the written value
(script blocks, `javascript:` URIs and inline event-handler patterns
removed, then trimmed and capped at 4096 units) — and not the raw value
whenever the raw value contained such a script-bearing sequence. -/
theorem C5_sanitized_roundtrip (s : LocalSCORMDataStore) (el v : String)
    (hacc : (setValue s el v).1 = true) :
    (getValue (setValue s el v).2 el).1 = sanitizeValue v ∧
    (scriptBearing v = true → (getValue (setValue s el v).2 el).1 ≠ v) := by
  by_cases hs : s.inited
  case neg =>
    exfalso
    rw [setValue] at hacc
    simp [hs] at hacc
  case pos =>
  by_cases hro : el ∈ readOnlyElements
  case pos =>
    exfalso
    rw [setValue] at hacc
    simp [hs, hro] at hacc
  case neg =>
  by_cases hval : validateSCORMElement el v = true
  case neg =>
    exfalso
    rw [setValue] at hacc
    simp [hs, hro, hval] at hacc
  case pos =>
  have hsv : setValue s el v =
      (true, { s with data := setData s.data el (sanitizeValue v), errorCode := "0" }) := by
    rw [setValue]
    simp [hs, hro, hval]
  rw [hsv]
  have hget : (getValue { s with data := setData s.data el (sanitizeValue v), errorCode := "0" } el).1 = sanitizeValue v := by
    rw [getValue]
    simp [hs, lookup_setData_self]
  refine ⟨hget, ?_⟩
  intro hsb heq
  rw [hget] at heq
  have hlt := sanitizeValue_length_lt v hsb
  rw [heq] at hlt
  omega

/-- C5, witness: a concrete accepted write whose value carries a
`javascript:` URI round-trips to the sanitized value, not the raw one. -/
theorem C5_witness :
    (getValue (setValue sActive "cmi.suspend_data" "javascript:x").2 "cmi.suspend_data").1
      = sanitizeValue "javascript:x" ∧
    (scriptBearing "javascript:x" = true →
      (getValue (setValue sActive "cmi.suspend_data" "javascript:x").2 "cmi.suspend_data").1
        ≠ "javascript:x") :=
  C5_sanitized_roundtrip sActive "cmi.suspend_data" "javascript:x" (by decide)
